import Mathlib

set_option maxHeartbeats 1000000
set_option maxRecDepth 4000

/-!
Verification development for the n-gram language-model repository
(`src/simple_model_builtin.py`, `src/text_processor_builtin.py`,
`src/chatbot.py`).

The Python code is shallowly embedded:
* Python `dict` / `Counter` / `defaultdict` become insertion-ordered
  association lists (CPython dicts preserve insertion order).
* Python `set` becomes a duplicate-free list in first-insertion order.
* Python floats become `ℚ` (all arithmetic the claims depend on is exact:
  counts, count ratios and renormalisation; `json` round-trips floats
  exactly).  `math.pow` is modelled as an arbitrary total function
  `qpow : ℚ → ℚ → ℚ` over which theorems quantify.
* Exceptions become `Option`/`Except` with `none` / `.error` for a raise.
* The pseudo-random source (`random.random`, `random.choice`) is modelled
  as a stream `rand : ℕ → ℚ` of draws in `[0,1)`, consumed in call order;
  `random.choice l` picks index `⌊u·|l|⌋` (clamped) and raises on an
  empty sequence.
* Text is modelled over ASCII characters (`str.lower`, `str.istitle`,
  `\\w`, `\\s` etc. restricted to ASCII).
-/

/-! ### Python string/character primitives (ASCII embedding) -/

/-- The apostrophe character (code point 39), used by Python `repr` of a
string when serialising tuple keys. -/
def qchar : Char := Char.ofNat 39

def pyIsUpperC (c : Char) : Bool := 65 ≤ c.toNat && c.toNat ≤ 90

def pyIsLowerC (c : Char) : Bool := 97 ≤ c.toNat && c.toNat ≤ 122

def pyIsAlphaC (c : Char) : Bool := pyIsUpperC c || pyIsLowerC c

def pyIsDigitC (c : Char) : Bool := 48 ≤ c.toNat && c.toNat ≤ 57

/-- Python `\s` over ASCII: space, tab, newline, carriage return,
vertical tab, form feed. -/
def pyIsSpaceC (c : Char) : Bool :=
  c.toNat = 32 || c.toNat = 9 || c.toNat = 10 || c.toNat = 13 ||
  c.toNat = 11 || c.toNat = 12

/-- Python `\w` over ASCII: letters, digits, underscore. -/
def isWordChar (c : Char) : Bool := pyIsAlphaC c || pyIsDigitC c || c.toNat = 95

def pyToLowerC (c : Char) : Char :=
  if pyIsUpperC c then Char.ofNat (c.toNat + 32) else c

def pyToUpperC (c : Char) : Char :=
  if pyIsLowerC c then Char.ofNat (c.toNat - 32) else c

/-- Python `str.lower` (ASCII). -/
def strLower (s : String) : String := String.mk (s.data.map pyToLowerC)

/-- Python `str.capitalize`: first character upper-cased, rest lower-cased. -/
def pyCapitalize (s : String) : String :=
  match s.data with
  | [] => ""
  | c :: rest => String.mk (pyToUpperC c :: rest.map pyToLowerC)

/-- Python `str.isalpha` (ASCII): non-empty and all alphabetic. -/
def pyIsAlphaStr (s : String) : Bool := !s.data.isEmpty && s.data.all pyIsAlphaC

/-- State machine for Python `str.istitle`:
upper-case letters may follow only uncased characters, lower-case letters
may follow only cased ones, and at least one cased character must occur. -/
def istGo : List Char → Bool → Bool → Bool
  | [], _, hasCased => hasCased
  | c :: rest, prevCased, hasCased =>
    if pyIsUpperC c then (if prevCased then false else istGo rest true true)
    else if pyIsLowerC c then (if prevCased then istGo rest true true else false)
    else istGo rest false hasCased

/-- Python `str.istitle` (ASCII). -/
def pyIsTitle (s : String) : Bool := istGo s.data false false

def leadsWith [DecidableEq α] : List α → List α → Bool
  | [], _ => true
  | _ :: _, [] => false
  | a :: as, b :: bs => decide (a = b) && leadsWith as bs

def inGo (sub : List Char) : List Char → Bool
  | [] => leadsWith sub []
  | c :: rest => leadsWith sub (c :: rest) || inGo sub rest

/-- Python `sub in s` for strings: substring containment. -/
def pyInStr (sub s : String) : Bool := inGo sub.data s.data

/-- Lexicographic `≤` on character lists by code point (Python `str` order). -/
def charsLe : List Char → List Char → Bool
  | [], _ => true
  | _ :: _, [] => false
  | a :: as, b :: bs =>
    if a = b then charsLe as bs else decide (a.toNat < b.toNat)

def strLe (a b : String) : Bool := charsLe a.data b.data

def insStr (x : String) : List String → List String
  | [] => [x]
  | y :: ys => if strLe x y then x :: y :: ys else y :: insStr x ys

/-- Python `sorted` on a collection of strings (ascending code-point order). -/
def sortStrings (l : List String) : List String := l.foldr insStr []

/-- Python `str.strip()`. -/
def pyStrip (s : String) : String :=
  String.mk (((s.data.dropWhile pyIsSpaceC).reverse.dropWhile pyIsSpaceC).reverse)

def splitWsGo : List Char → List Char → List String
  | [], acc => if acc.isEmpty then [] else [String.mk acc.reverse]
  | c :: rest, acc =>
    if pyIsSpaceC c then
      (if acc.isEmpty then [] else [String.mk acc.reverse]) ++ splitWsGo rest []
    else splitWsGo rest (c :: acc)

/-- Python `str.split()` with no argument: split on whitespace runs,
dropping empty fields. -/
def pySplitWs (s : String) : List String := splitWsGo s.data []

/-- Python `' '.join`. -/
def joinSpace (l : List String) : String := String.intercalate " " l

/-- Python list slice `l[a:b]` with negative-index and clamping semantics. -/
def pySlice (l : List α) (a b : ℤ) : List α :=
  let n : ℤ := l.length
  let na : ℤ := if a < 0 then max 0 (n + a) else min a n
  let nb : ℤ := if b < 0 then max 0 (n + b) else min b n
  (l.drop na.toNat).take (nb - na).toNat

/-- Python `l[a:]`. -/
def pySliceFrom (l : List α) (a : ℤ) : List α := pySlice l a l.length

/-- Python `l[:b]`. -/
def pySliceTo (l : List α) (b : ℤ) : List α := pySlice l 0 b

/-- Python indexing `l[i]` with negative-index semantics; `none` means
`IndexError`. -/
def pyIndex (l : List α) (i : ℤ) : Option α :=
  let j : ℤ := if i < 0 then (l.length : ℤ) + i else i
  if j < 0 then none else l.get? j.toNat

/-- First-match association lookup (Python `dict` access / `.get`). -/
def lookupA [DecidableEq α] : List (α × β) → α → Option β
  | [], _ => none
  | (a, b) :: rest, k => if a = k then some b else lookupA rest k

/-- Replace the value at the first occurrence of a key (Python
`d[k] = v` for a present key: position preserved). -/
def setA [DecidableEq α] : List (α × β) → α → β → List (α × β)
  | [], _, _ => []
  | (a, b) :: rest, k, v => if a = k then (a, v) :: rest else (a, b) :: setA rest k v

/-- Python `Counter[w] += 1`: update in place, or append a new key. -/
def bumpCount (l : List (String × ℕ)) (w : String) : List (String × ℕ) :=
  match lookupA l w with
  | some c => setA l w (c + 1)
  | none => l ++ [(w, 1)]

/-- `defaultdict(int)[w] += 1` over rationals. -/
def bumpQ (l : List (String × ℚ)) (w : String) : List (String × ℚ) :=
  match lookupA l w with
  | some c => setA l w (c + 1)
  | none => l ++ [(w, 1)]

/-- `self.n_grams[k][w] += 1` on a `defaultdict(lambda: defaultdict(int))`. -/
def bumpTable (tbl : List (List String × List (String × ℚ))) (k : List String)
    (w : String) : List (List String × List (String × ℚ)) :=
  match lookupA tbl k with
  | some inner => setA tbl k (bumpQ inner w)
  | none => tbl ++ [(k, [(w, 1)])]

/-- Index drawn by `random.choice` from one stream value `u ∈ [0,1)`. -/
def pyChoiceIdx (n : ℕ) (u : ℚ) : ℕ := min (⌊u * (n : ℚ)⌋.toNat) (n - 1)

/-- `random.choice l` given the stream value `u`; `none` models the
`IndexError` raised on an empty sequence. -/
def pyChoiceOpt (l : List α) (u : ℚ) : Option α := l.get? (pyChoiceIdx l.length u)

/-- `random.choice` on a list known (at every use site) to be non-empty;
the default is never reached. -/
def choiceD (l : List α) (u : ℚ) (d : α) : α := (pyChoiceOpt l u).getD d

def pySetGo [DecidableEq α] (seen : List α) : List α → List α
  | [] => []
  | x :: xs => if seen.contains x then pySetGo seen xs else x :: pySetGo (x :: seen) xs

/-- Python `list(set(l))` as modelled: duplicates removed, first-insertion
order kept. -/
def pySetOfList [DecidableEq α] (l : List α) : List α := pySetGo [] l

/-! ### The language model (`SimpleLanguageModelBuiltin`) -/

/-- Runtime state of `SimpleLanguageModelBuiltin` (its `__init__` fields;
the `basic_grammar` dict is a per-instance constant and is kept as the
global definitions below). -/
structure Model where
  n_gram_size : ℕ
  min_word_count : ℕ
  word_to_id : List (String × ℕ)
  id_to_word : List (ℕ × String)
  vocabulary : List String
  word_counts : List (String × ℕ)
  n_grams : List (List String × List (String × ℚ))
  sentence_starters : List String
  is_trained : Bool
deriving DecidableEq, Repr

/-- `SimpleLanguageModelBuiltin(n_gram_size, min_word_count)`. -/
def freshModel (n minc : ℕ) : Model :=
  ⟨n, minc, [], [], [], [], [], [], false⟩

/-- `basic_grammar['sentence_starters']`. -/
def basicStarters : List String :=
  ["The", "A", "An", "In", "On", "At", "Once", "When", "After", "Before"]

/-- `basic_grammar['common_words']`. -/
def commonWords : List String :=
  ["the", "a", "an", "and", "or", "but", "in", "on", "at", "to", "for",
   "of", "with", "by"]

/-- `basic_grammar['punctuation']`. -/
def punctuationMarks : List String := [".", "!", "?"]

/-- `basic_grammar['conjunctions']` (unused by the methods the claims cover). -/
def conjunctionsList : List String := ["and", "but", "or", "so", "yet", "for"]

/-- `basic_grammar['prepositions']` (unused by the methods the claims cover). -/
def prepositionsList : List String :=
  ["in", "on", "at", "by", "for", "with", "to", "from", "about", "over", "under"]

def tokFinish (acc : List Char) : List String :=
  if acc.isEmpty then [] else [String.mk acc.reverse]

/-- Scanner for `re.findall(r'\b\w+\b|[.!?;,]', s)`: maximal word-character
runs and the individual punctuation characters `. ! ? ; ,`, in order. -/
def tokGo : List Char → List Char → List String
  | [], acc => tokFinish acc
  | c :: rest, acc =>
    if isWordChar c then tokGo rest (c :: acc)
    else if c ∈ ['.', '!', '?', ';', ','] then
      tokFinish acc ++ String.mk [c] :: tokGo rest []
    else tokFinish acc ++ tokGo rest []

def tokenize (s : String) : List String := tokGo s.data []

/-- `SimpleLanguageModelBuiltin._preprocess_sentence`. -/
def preprocess_sentence (s : String) : List String :=
  (tokenize (pyStrip s)).filterMap (fun t =>
    if pyIsAlphaStr t && decide (1 < t.length) then some (strLower t)
    else if pyInStr t ".!?" then some t
    else none)

/-- First phase of `train` (source lines 60–72): collect the processed
sentences of length ≥ n, append title-cased first tokens to the starter
list, and accumulate word counts.  `none` models the `IndexError` of
`words[0]` (reachable only with `n_gram_size = 0` and an empty token
list). -/
def prepGo (n : ℕ) :
    List String → List (List String) × List String × List (String × ℕ) →
    Option (List (List String) × List String × List (String × ℕ))
  | [], acc => some acc
  | s :: rest, (proc, starters, counts) =>
    if n ≤ (preprocess_sentence s).length then
      match preprocess_sentence s with
      | [] => none
      | w :: tl =>
        prepGo n rest
          (proc ++ [w :: tl],
           starters ++ (if pyIsTitle w then [w] else []),
           (w :: tl).foldl bumpCount counts)
    else prepGo n rest (proc, starters, counts)

/-- N-gram counting for one vocabulary-filtered sentence (source lines
87–91): slide the window, `none` models an `IndexError` from
`filtered_sentence[i + n - 1]`. -/
def buildSent (n : ℕ) (tbl : List (List String × List (String × ℚ)))
    (filtered : List String) : Option (List (List String × List (String × ℚ))) :=
  if n ≤ filtered.length then
    (List.range (((filtered.length : ℤ) - n + 1).toNat)).foldlM
      (fun (t : List (List String × List (String × ℚ))) (i : ℕ) =>
        match pyIndex filtered ((i : ℤ) + (n : ℤ) - 1) with
        | none => none
        | some nxt => some (bumpTable t (pySlice filtered (i : ℤ) ((i : ℤ) + (n : ℤ) - 1)) nxt))
      tbl
  else some tbl

/-- N-gram counting over all processed sentences (source lines 83–91). -/
def buildNgrams (n : ℕ) (vocab : List String)
    (tbl0 : List (List String × List (String × ℚ)))
    (sents : List (List String)) : Option (List (List String × List (String × ℚ))) :=
  sents.foldlM (fun t ws => buildSent n t (ws.filter (fun w => vocab.contains w))) tbl0

def sumVals (v : List (String × ℚ)) : ℚ := (v.map Prod.snd).sum

/-- Count-to-probability conversion (source lines 93–97): every context's
values are divided by their sum; `none` models the `ZeroDivisionError`
raised when a context's total is zero. -/
def normalizeTable (tbl : List (List String × List (String × ℚ))) :
    Option (List (List String × List (String × ℚ))) :=
  if tbl.all (fun e => decide (sumVals e.2 ≠ 0)) then
    some (tbl.map (fun e => (e.1, e.2.map (fun p => (p.1, p.2 / sumVals e.2)))))
  else none

/-- The vocabulary set comprehension of `train` (source lines 75–76):
words whose accumulated count meets the minimum, in first-count order. -/
def trainVocab (minc : ℕ) (counts : List (String × ℕ)) : List String :=
  (counts.filter (fun p => decide (minc ≤ p.2))).map Prod.fst

/-- `word_to_id` (source line 79): enumerate the sorted vocabulary. -/
def trainW2I (vocab : List String) : List (String × ℕ) :=
  (sortStrings vocab).enum.map (fun p => (p.2, p.1))

/-- `id_to_word` (source line 80). -/
def trainI2W (w2i : List (String × ℕ)) : List (ℕ × String) :=
  w2i.map (fun p => (p.2, p.1))

/-- `SimpleLanguageModelBuiltin.train`.  An empty sentence list logs a
warning and returns with the state untouched.  Note that no field is
reset: counts, starters and table entries accumulate on top of the prior
state. -/
def train (m : Model) (sentences : List String) : Option Model :=
  if sentences.isEmpty then some m
  else
    match prepGo m.n_gram_size sentences ([], m.sentence_starters, m.word_counts) with
    | none => none
    | some (proc, starters, counts) =>
      match buildNgrams m.n_gram_size (trainVocab m.min_word_count counts) m.n_grams proc with
      | none => none
      | some tbl =>
        match normalizeTable tbl with
        | none => none
        | some tbl' =>
          some { m with
                  word_to_id := trainW2I (trainVocab m.min_word_count counts),
                  id_to_word := trainI2W (trainW2I (trainVocab m.min_word_count counts)),
                  vocabulary := trainVocab m.min_word_count counts,
                  word_counts := counts, n_grams := tbl',
                  sentence_starters := starters, is_trained := true }

/-! ### Generation (`generate_text` and helpers) -/

/-- Python `max` over a non-empty list of numbers (0 for `[]`, unused). -/
def listMaxQ : List ℚ → ℚ
  | [] => 0
  | [x] => x
  | x :: y :: rest => max x (listMaxQ (y :: rest))

/-- Greedy selection at temperature 0 (source lines 189–193):
`max(probs)` then `probs.index(max)`, i.e. the first pair attaining the
maximal probability. -/
def greedyPick (probs : List (String × ℚ)) : Option String :=
  (probs.find? (fun p => decide (p.2 = listMaxQ (probs.map Prod.snd)))).map Prod.fst

/-- Cumulative-distribution walk (source lines 207–213): return the first
word whose running total reaches the draw `u`. -/
def cdfGo (cum : ℚ) : List (String × ℚ) → ℚ → Option String
  | [], _ => none
  | (w, p) :: rest, u => if u ≤ cum + p then some w else cdfGo (cum + p) rest u

/-- Temperature scaling (source lines 196–197): raise every probability
to the power `1/temp` (`math.pow` is the abstract `qpow`); the identity
when `temp = 1`. -/
def scaleTemp (probs : List (String × ℚ)) (temp : ℚ) (qpow : ℚ → ℚ → ℚ) :
    List (String × ℚ) :=
  if temp = 1 then probs else probs.map (fun p => (p.1, qpow p.2 (1 / temp)))

/-- `SimpleLanguageModelBuiltin._sample_word_builtin`; `u` is the single
stream draw it consumes when `temp ≠ 0`: greedy first-argmax at
temperature 0, otherwise scale, renormalise and walk the cumulative
distribution (with `random.choice` over the words when the scaled total
is zero, and the last word as final fallback). -/
def sample_word_builtin (probs : List (String × ℚ)) (temp : ℚ)
    (qpow : ℚ → ℚ → ℚ) (u : ℚ) : Option String :=
  if temp = 0 then greedyPick probs
  else if sumVals (scaleTemp probs temp qpow) = 0 then
    pyChoiceOpt (probs.map Prod.fst) u
  else
    match cdfGo 0 ((scaleTemp probs temp qpow).map
        (fun p => (p.1, p.2 / sumVals (scaleTemp probs temp qpow)))) u with
    | some w => some w
    | none => (probs.map Prod.fst).getLast?

/-- The generation context: the last `n-1` generated words (Python
`generated_words[-(n-1):]`, the whole list when `n ≤ 1`). -/
def genContext (n : ℕ) (words : List String) : List String :=
  if ((n : ℤ) - 1) ≤ (words.length : ℤ) then
    pySliceFrom words (-((n : ℤ) - 1))
  else words

/-- The distribution found after dropping the oldest context token once
(source lines 163–165); `[]` when the context is too short to shorten. -/
def genProbs2 (m : Model) (words : List String) : List (String × ℚ) :=
  if 1 < (genContext m.n_gram_size words).length then
    (lookupA m.n_grams ((genContext m.n_gram_size words).drop 1)).getD []
  else []

/-- One iteration of the generation loop (source lines 151–175): build the
context from the last `n-1` generated words, look it up, on a miss drop
the oldest token once and retry, and otherwise fall back to a uniformly
random vocabulary word.  Returns the chosen word and the advanced stream
counter; `none` models an exception (`random.choice` on an empty
vocabulary). -/
def genStep (m : Model) (qpow : ℚ → ℚ → ℚ) (temp : ℚ) (rand : ℕ → ℚ)
    (words : List String) (c : ℕ) : Option (String × ℕ) :=
  if ((lookupA m.n_grams (genContext m.n_gram_size words)).getD []).isEmpty then
    if (genProbs2 m words).isEmpty then
      (pyChoiceOpt m.vocabulary (rand c)).map (fun w => (w, c + 1))
    else
      (sample_word_builtin (genProbs2 m words) temp qpow (rand c)).map
        (fun w => (w, if temp = 0 then c else c + 1))
  else
    (sample_word_builtin ((lookupA m.n_grams (genContext m.n_gram_size words)).getD [])
        temp qpow (rand c)).map
      (fun w => (w, if temp = 0 then c else c + 1))

/-- The `for _ in range(max_length)` loop of `generate_text`: append the
sampled word, stop early on terminal punctuation (Python's substring test
`next_word in '.!?'`). -/
def genLoop (m : Model) (qpow : ℚ → ℚ → ℚ) (temp : ℚ) (rand : ℕ → ℚ) :
    ℕ → List String → ℕ → Option (List String)
  | 0, words, _ => some words
  | Nat.succ fuel, words, c =>
    match genStep m qpow temp rand words c with
    | none => none
    | some (w, c') =>
      if pyInStr w ".!?" then some (words ++ [w])
      else genLoop m qpow temp rand fuel (words ++ [w]) c'

def fmtFold (fs : List String) (w : String) : List String :=
  if pyInStr w ".!?" then
    match fs.getLast? with
    | some last => fs.dropLast ++ [last ++ w]
    | none => [w]
  else fs ++ [w]

/-- Scanner for `re.sub(r'\s+([.!?])', r'\1', text)`: delete a whitespace
run immediately preceding a terminal punctuation mark. -/
def fixGo : ℕ → List Char → List Char
  | 0, l => l
  | _, [] => []
  | fuel + 1, c :: rest =>
    if pyIsSpaceC c then
      let run := rest.takeWhile pyIsSpaceC
      let after := rest.drop run.length
      match after with
      | [] => c :: run
      | p :: tl =>
        if p ∈ ['.', '!', '?'] then p :: fixGo fuel tl
        else c :: run ++ fixGo fuel after
    else c :: fixGo fuel rest

def fixSpacing (s : String) : String := String.mk (fixGo (s.data.length + 1) s.data)

/-- `SimpleLanguageModelBuiltin._format_output`. -/
def format_output (words : List String) : String :=
  match words with
  | [] => ""
  | w0 :: rest => fixSpacing (joinSpace (rest.foldl fmtFold [pyCapitalize w0]))

/-- The generation loop of `_generate_basic_text` (source lines 247–252):
per iteration one draw decides (`< 0.3`) between a random common word
(one more draw) and the literal `"[WORD]"` marker.  Returns the produced
words and the final stream counter. -/
def basicMiddle (rand : ℕ → ℚ) : ℕ → ℕ → List String × ℕ
  | c, 0 => ([], c)
  | c, Nat.succ k =>
    if rand c < 3 / 10 then
      (choiceD commonWords (rand (c + 1)) "the" :: (basicMiddle rand (c + 2) k).1,
       (basicMiddle rand (c + 2) k).2)
    else
      ("[WORD]" :: (basicMiddle rand (c + 1) k).1, (basicMiddle rand (c + 1) k).2)

/-- The initial words of `_generate_basic_text`: the whitespace-split
prompt, or one random fixed starter (with the number of stream draws
consumed). -/
def basicSeed (prompt : String) (rand : ℕ → ℚ) : List String × ℕ :=
  if prompt ≠ "" then (pySplitWs prompt, 0)
  else ([choiceD basicStarters (rand 0) "The"], 1)

/-- The word list built by `_generate_basic_text`: the whitespace-split
prompt (or one random fixed starter), then `min(max_length, 20)` generated
words, then one random punctuation mark. -/
def genBasicWords (prompt : String) (maxLen : ℤ) (rand : ℕ → ℚ) : List String :=
  (basicSeed prompt rand).1 ++
    (basicMiddle rand (basicSeed prompt rand).2 (min maxLen 20).toNat).1 ++
    [choiceD punctuationMarks
      (rand (basicMiddle rand (basicSeed prompt rand).2 (min maxLen 20).toNat).2) "."]

/-- `SimpleLanguageModelBuiltin._generate_basic_text` (never raises: every
`random.choice` is over a fixed non-empty list). -/
def generate_basic_text (prompt : String) (maxLen : ℤ) (rand : ℕ → ℚ) : String :=
  "Model not trained. Basic output: " ++ joinSpace (genBasicWords prompt maxLen rand)

/-- The prompt tokenisation of `generate_text` (source lines 137–140):
preprocess the prompt and keep only vocabulary words. -/
def promptWords (m : Model) (prompt : String) : List String :=
  (preprocess_sentence prompt).filter (fun w => m.vocabulary.contains w)

/-- The seeding stage of `generate_text` (source lines 136–147): the
vocabulary-filtered prompt tokens; or, for an empty prompt, one random
recorded starter (lower-cased), falling back to one uniformly random
vocabulary word.  `none` models the `IndexError` of `random.choice` on an
empty sequence. -/
def genSeed (m : Model) (prompt : String) (rand : ℕ → ℚ) :
    Option (List String × ℕ) :=
  if prompt ≠ "" then
    some (promptWords m prompt, 0)
  else if !m.sentence_starters.isEmpty then
    (pyChoiceOpt (pySetOfList m.sentence_starters) (rand 0)).map
      (fun s => ([strLower s], 1))
  else (pyChoiceOpt m.vocabulary (rand 0)).map (fun w => ([w], 1))

/-- `SimpleLanguageModelBuiltin.generate_text`.  `none` models an
uncaught exception (`random.choice` over an empty vocabulary). -/
def generate_text (m : Model) (prompt : String) (max_length : ℤ)
    (temperature : ℚ) (qpow : ℚ → ℚ → ℚ) (rand : ℕ → ℚ) : Option String :=
  if m.is_trained = false then some (generate_basic_text prompt max_length rand)
  else
    match genSeed m prompt rand with
    | none => none
    | some p => (genLoop m qpow temperature rand max_length.toNat p.1 p.2).map format_output

/-! ### Suggestions (`suggest_next_words`) -/

def insertDesc (x : String × ℚ) : List (String × ℚ) → List (String × ℚ)
  | [] => [x]
  | y :: ys => if y.2 < x.2 then x :: y :: ys else y :: insertDesc x ys

/-- Python `sorted(pairs, key=lambda x: x[1], reverse=True)`: stable
descending sort by probability. -/
def sortDesc (l : List (String × ℚ)) : List (String × ℚ) :=
  l.foldl (fun acc x => insertDesc x acc) []

/-- The context tuple computed by `suggest_next_words` (source lines
278–284): preprocess, filter to the vocabulary, keep the last `n-1`
tokens. -/
def suggestContext (m : Model) (context : String) : List String :=
  let ws := (preprocess_sentence context).filter (fun w => m.vocabulary.contains w)
  if ((m.n_gram_size : ℤ) - 1) ≤ (ws.length : ℤ) then
    pySliceFrom ws (-((m.n_gram_size : ℤ) - 1))
  else ws

/-- The distribution `suggest_next_words` ranks (source lines 286–291):
the full-context entry, or — when that is absent and the context has more
than one token — the entry at the once-shortened context. -/
def suggestProbs (m : Model) (context : String) : List (String × ℚ) :=
  if ((lookupA m.n_grams (suggestContext m context)).getD []).isEmpty &&
      decide (1 < (suggestContext m context).length) then
    (lookupA m.n_grams ((suggestContext m context).drop 1)).getD []
  else (lookupA m.n_grams (suggestContext m context)).getD []

/-- `SimpleLanguageModelBuiltin.suggest_next_words`. -/
def suggest_next_words (m : Model) (context : String) (num_suggestions : ℤ) :
    List (String × ℚ) :=
  if m.is_trained = false then
    [("not", 1 / 5), ("trained", 1 / 5), ("yet", 1 / 5), ("please", 1 / 5),
     ("wait", 1 / 5)]
  else pySliceTo (sortDesc (suggestProbs m context)) num_suggestions

/-! ### Persistence (`save_model` / `load_model`) -/

def natToStr (n : ℕ) : String :=
  if n = 0 then "0" else String.mk ((Nat.digits 10 n).reverse.map Nat.digitChar)

def charToDigit (c : Char) : ℕ := c.toNat - 48

/-- Python `int(s)` restricted to the digit strings `save_model` emits
(`none` models the `ValueError` on anything else). -/
def parseNat (s : String) : Option ℕ :=
  if !s.data.isEmpty && s.data.all pyIsDigitC then
    some (Nat.ofDigits 10 ((s.data.map charToDigit).reverse))
  else none

def encRest : List String → List Char
  | [] => []
  | [t] => qchar :: t.data ++ [qchar, ')']
  | t :: ts => qchar :: t.data ++ [qchar, ',', ' '] ++ encRest ts

def encodeKeyChars : List String → List Char
  | [] => ['(', ')']
  | [t] => '(' :: qchar :: t.data ++ [qchar, ',', ')']
  | ts => '(' :: encRest ts

/-- `str(k)` for a tuple `k` of token strings: Python repr with single
quotes (the tokens the trainer produces contain no quote or backslash). -/
def encodeKey (k : List String) : String := String.mk (encodeKeyChars k)

def splitAtQuote : List Char → Option (List Char × List Char)
  | [] => none
  | c :: rest =>
    if c = qchar then some ([], rest)
    else (splitAtQuote rest).map (fun p => (c :: p.1, p.2))

def decItems : ℕ → List Char → Option (List String)
  | 0, _ => none
  | _ + 1, [] => none
  | fuel + 1, c :: rest =>
    if c = qchar then
      match splitAtQuote rest with
      | none => none
      | some p =>
        if p.2 = [',', ')'] then some [String.mk p.1]
        else if p.2 = [')'] then some [String.mk p.1]
        else if p.2.take 2 = [',', ' '] then
          (decItems fuel (p.2.drop 2)).map (String.mk p.1 :: ·)
        else none
    else none

def decodeChars : List Char → Option (List String)
  | [] => none
  | c :: rest =>
    if c = '(' then
      if rest = [')'] then some [] else decItems rest.length rest
    else none

/-- `eval(k)` on the tuple literals `save_model` writes: parse the string
back into the token tuple; `none` models an `eval` failure, which `load`
re-raises. -/
def decodeKey (s : String) : Option (List String) := decodeChars s.data

/-- The persisted JSON object written by
`SimpleLanguageModelBuiltin.save_model` (the file/JSON text layer is
abstracted to the parsed object; `json` round-trips numbers and strings
exactly). -/
structure SavedModel where
  n_gram_size : ℕ
  min_word_count : ℕ
  word_to_id : List (String × ℕ)
  id_to_word : List (String × String)
  vocabulary : List String
  word_counts : List (String × ℕ)
  n_grams : List (String × List (String × ℚ))
  sentence_starters : List String
  is_trained : Bool
deriving DecidableEq, Repr

/-- `SimpleLanguageModelBuiltin.save_model`: `id_to_word` keys become
decimal strings (JSON object keys), n-gram context keys become `str(k)`
tuple literals, the vocabulary set becomes a list. -/
def save_model (m : Model) : SavedModel :=
  ⟨m.n_gram_size, m.min_word_count, m.word_to_id,
   m.id_to_word.map (fun p => (natToStr p.1, p.2)),
   m.vocabulary, m.word_counts,
   m.n_grams.map (fun p => (encodeKey p.1, p.2)),
   m.sentence_starters, m.is_trained⟩

/-- Rebuild a dict from saved string keys, decoding each key with `f`
(the `{int(k): v for ...}` comprehension and the key-`eval` loop of
`load_model`); the first failing key raises. -/
def parsePairs (f : String → Option γ) : List (String × β) → Option (List (γ × β))
  | [] => some []
  | p :: rest =>
    match f p.1 with
    | none => none
    | some k =>
      match parsePairs f rest with
      | none => none
      | some out => some ((k, p.2) :: out)

/-- `SimpleLanguageModelBuiltin.load_model`: parse `id_to_word` keys with
`int`, reconstruct n-gram keys with `eval`, rebuild the vocabulary set;
`none` models the re-raised exception of the `except` block. -/
def load_model (sd : SavedModel) : Option Model :=
  match parsePairs parseNat sd.id_to_word with
  | none => none
  | some i2w =>
    match parsePairs decodeKey sd.n_grams with
    | none => none
    | some tbl =>
      some ⟨sd.n_gram_size, sd.min_word_count, sd.word_to_id, i2w,
            pySetOfList sd.vocabulary, sd.word_counts, tbl,
            sd.sentence_starters, sd.is_trained⟩

/-! ### Chatbot training entry point (`train_from_books`) -/

inductive TrainBooksError where
  | noValidBooks : TrainBooksError
  | noTrainingSentences : TrainBooksError
  | trainingException : TrainBooksError
deriving DecidableEq, Repr

/-- `BookWritingChatbot.train_from_books` (chatbot.py lines 59–71), with
the file system abstracted: `books` stands for the per-book sentence lists
of `load_books_from_directory`'s result, and `get_training_data` is their
concatenation.  `noValidBooks` models `ValueError("No valid books found
in ...")` and `noTrainingSentences` models the distinct
`ValueError("No training sentences extracted from books")`. -/
def train_from_books (m : Model) (books : List (List String)) :
    Except TrainBooksError Model :=
  if books.isEmpty then .error .noValidBooks
  else
    let sents := books.flatten
    if sents.isEmpty then .error .noTrainingSentences
    else
      match train m sents with
      | none => .error .trainingException
      | some m' => .ok m'

/-! ### Sentence segmentation (`TextProcessorBuiltin._split_into_sentences_builtin`) -/

/-- Scanner for `re.sub(r'\b([A-Z][a-z]{1,3}\.)', r'\1<ABBREV>', text)`:
at a word boundary, a capital followed by a maximal run of 1–3 lower-case
letters and a period keeps the matched text and gains the marker. -/
def abbrevGo : ℕ → Bool → List Char → List Char
  | 0, _, l => l
  | _, _, [] => []
  | fuel + 1, prevW, c :: rest =>
    if !prevW && pyIsUpperC c then
      let run := rest.takeWhile pyIsLowerC
      if 1 ≤ run.length && run.length ≤ 3 then
        match rest.drop run.length with
        | '.' :: tl => c :: run ++ '.' :: ("<ABBREV>".data ++ abbrevGo fuel false tl)
        | _ => c :: abbrevGo fuel (isWordChar c) rest
      else c :: abbrevGo fuel (isWordChar c) rest
    else c :: abbrevGo fuel (isWordChar c) rest

def abbrevMark (s : String) : String :=
  String.mk (abbrevGo (s.data.length + 1) false s.data)

/-- Scanner for `re.sub(r'(\d+\.\d+)', r'\1<DECIMAL>', text)`. -/
def decimalGo : ℕ → List Char → List Char
  | 0, l => l
  | _, [] => []
  | fuel + 1, c :: rest =>
    if pyIsDigitC c then
      let d1 := rest.takeWhile pyIsDigitC
      match rest.drop d1.length with
      | '.' :: tl =>
        let d2 := tl.takeWhile pyIsDigitC
        if d2.isEmpty then c :: decimalGo fuel rest
        else c :: d1 ++ '.' :: d2 ++ ("<DECIMAL>".data ++ decimalGo fuel (tl.drop d2.length))
      | _ => c :: decimalGo fuel rest
    else c :: decimalGo fuel rest

def decimalMark (s : String) : String :=
  String.mk (decimalGo (s.data.length + 1) s.data)

/-- Scanner for `re.split(r'[.!?]+(?:\s+(?=[A-Z])|$)', text)`: a run of
terminal punctuation is a delimiter (and is consumed) when followed by
whitespace and a capital letter, or by the end of the string (the latter
leaves a trailing empty field, as `re.split` does). -/
def sentGo : ℕ → List Char → List Char → List (List Char)
  | 0, acc, l => [acc.reverse ++ l]
  | _, acc, [] => [acc.reverse]
  | fuel + 1, acc, c :: rest =>
    if c ∈ ['.', '!', '?'] then
      let run := rest.takeWhile (fun x => x ∈ ['.', '!', '?'])
      let after := rest.drop run.length
      if after.isEmpty then [acc.reverse, []]
      else
        let ws := after.takeWhile pyIsSpaceC
        let after2 := after.drop ws.length
        if !ws.isEmpty && (match after2 with | a :: _ => pyIsUpperC a | [] => false) then
          acc.reverse :: sentGo fuel [] after2
        else sentGo fuel (run.reverse ++ c :: acc) after
    else sentGo fuel (c :: acc) rest

/-- Python `s.replace(old, new)` for non-empty `old`: all non-overlapping
occurrences, left to right. -/
def replGo : ℕ → List Char → List Char → List Char → List Char
  | 0, _, _, l => l
  | _, _, _, [] => []
  | fuel + 1, old, new, c :: rest =>
    if leadsWith old (c :: rest) then new ++ replGo fuel old new ((c :: rest).drop old.length)
    else c :: replGo fuel old new rest

def strReplace (s old new : String) : String :=
  String.mk (replGo (s.data.length + 1) old.data new.data s.data)

/-- `TextProcessorBuiltin._split_into_sentences_builtin`: protect
abbreviations and decimals with markers, split, restore markers to
periods, strip, and drop empty fragments. -/
def split_into_sentences_builtin (text : String) : List String :=
  let t2 := decimalMark (abbrevMark text)
  let pieces := sentGo (t2.data.length + 1) [] t2.data
  (pieces.map (fun cs =>
    pyStrip (strReplace (strReplace (String.mk cs) "<ABBREV>" ".") "<DECIMAL>" "."))).filter
    (fun s => s ≠ "")

/-! ### Concrete states used by the witnesses and counterexamples -/

/-- Backslash character (code point 92). -/
def bslash : Char := Char.ofNat 92

/-- A token is repr-plain when Python `str(tuple)` renders it verbatim
between single quotes: printable ASCII without quote or backslash.  Every
token the trainer produces (lower-cased ASCII letters, `.`, `!`, `?`)
is repr-plain. -/
def safeTok (t : String) : Prop :=
  ∀ c ∈ t.data, 32 ≤ c.toNat ∧ c.toNat ≤ 126 ∧ c ≠ qchar ∧ c ≠ bslash

instance (t : String) : Decidable (safeTok t) := by
  unfold safeTok; infer_instance

def qpow0 : ℚ → ℚ → ℚ := fun p _ => p

def rand0 : ℕ → ℚ := fun _ => 0

/-- A loadable trained state with context size 4 whose table has an entry
at the length-1 suffix `["dd"]` only (such mixed-length keys arise from
`load_model`, whose `eval`-based keys are unconstrained). -/
def mBackoffGap : Model :=
  { freshModel 4 1 with
    vocabulary := ["aa", "bb", "cc", "dd"],
    n_grams := [(["dd"], [("aa", 1)])],
    is_trained := true }

/-- A trained state with context size 3, a gap at the full context
`["bb","cc"]` and an entry at the once-shortened context `["cc"]`. -/
def mBackoffOne : Model :=
  { freshModel 3 1 with
    vocabulary := ["aa", "bb", "cc", "dd"],
    n_grams := [(["cc"], [("dd", 1)])],
    is_trained := true }

/-- A small trained state for the persistence round trip. -/
def mRoundTrip : Model :=
  { freshModel 3 1 with
    word_to_id := [("aa", 0), ("bb", 1)],
    id_to_word := [(0, "aa"), (1, "bb")],
    vocabulary := ["aa", "bb"],
    word_counts := [("aa", 2), ("bb", 2)],
    n_grams := [(["aa", "bb"], [("aa", 1)])],
    is_trained := true }

/-- `train (freshModel 3 1) ["aa bb cc"]`. -/
def mTrainA : Model :=
  { n_gram_size := 3, min_word_count := 1,
    word_to_id := [("aa", 0), ("bb", 1), ("cc", 2)],
    id_to_word := [(0, "aa"), (1, "bb"), (2, "cc")],
    vocabulary := ["aa", "bb", "cc"],
    word_counts := [("aa", 1), ("bb", 1), ("cc", 1)],
    n_grams := [(["aa", "bb"], [("cc", 1)])],
    sentence_starters := [], is_trained := true }

/-- `train mTrainA ["dd ee ff"]`. -/
def mTrainB : Model :=
  { n_gram_size := 3, min_word_count := 1,
    word_to_id := [("aa", 0), ("bb", 1), ("cc", 2), ("dd", 3), ("ee", 4), ("ff", 5)],
    id_to_word := [(0, "aa"), (1, "bb"), (2, "cc"), (3, "dd"), (4, "ee"), (5, "ff")],
    vocabulary := ["aa", "bb", "cc", "dd", "ee", "ff"],
    word_counts := [("aa", 1), ("bb", 1), ("cc", 1), ("dd", 1), ("ee", 1), ("ff", 1)],
    n_grams := [(["aa", "bb"], [("cc", 1)]), (["dd", "ee"], [("ff", 1)])],
    sentence_starters := [], is_trained := true }

/-- `train (freshModel 3 1) ["The cat sat"]`. -/
def mStarter : Model :=
  { n_gram_size := 3, min_word_count := 1,
    word_to_id := [("cat", 0), ("sat", 1), ("the", 2)],
    id_to_word := [(0, "cat"), (1, "sat"), (2, "the")],
    vocabulary := ["the", "cat", "sat"],
    word_counts := [("the", 1), ("cat", 1), ("sat", 1)],
    n_grams := [(["the", "cat"], [("sat", 1)])],
    sentence_starters := [], is_trained := true }

/-- `train (freshModel 3 1) ["aa bb cc dd.", "aa bb cc ee."]`: a trained
state with a two-way distribution at context `["bb","cc"]`. -/
def mTrainTwo : Model :=
  { n_gram_size := 3, min_word_count := 1,
    word_to_id := [(".", 0), ("aa", 1), ("bb", 2), ("cc", 3), ("dd", 4), ("ee", 5)],
    id_to_word := [(0, "."), (1, "aa"), (2, "bb"), (3, "cc"), (4, "dd"), (5, "ee")],
    vocabulary := ["aa", "bb", "cc", "dd", ".", "ee"],
    word_counts := [("aa", 2), ("bb", 2), ("cc", 2), ("dd", 1), (".", 2), ("ee", 1)],
    n_grams := [(["aa", "bb"], [("cc", 1)]),
                (["bb", "cc"], [("dd", (1 : ℚ)/2), ("ee", (1 : ℚ)/2)]),
                (["cc", "dd"], [(".", 1)]),
                (["cc", "ee"], [(".", 1)])],
    sentence_starters := [], is_trained := true }

/-! ### Claim theorems -/

/-- C7 (counterexample): the segmenter does not return the two sentences
claimed in the spec for the classic abbreviation input. -/
theorem c7_counterexample :
    split_into_sentences_builtin "Dr. Smith went home. She was tired." ≠
      ["Dr. Smith went home.", "She was tired."] := by decide

/-- C7 (amended): segmenting `"Dr. Smith went home. She was tired."`
yields exactly two sentences and no split occurs after `"Dr."`, but the
abbreviation marker is restored on top of the kept period (giving
`"Dr.."`) and the splitter consumes each sentence's terminal punctuation. -/
theorem c7_amended_segmentation :
    split_into_sentences_builtin "Dr. Smith went home. She was tired." =
      ["Dr.. Smith went home", "She was tired"] := by decide

/-- C10: on a never-trained model `suggest_next_words` ignores the
requested count entirely and returns the five fixed
`(word, 0.2)` pairs, for every context and every count (including 0). -/
theorem c10_untrained_suggest (m : Model) (context : String) (k : ℤ)
    (h : m.is_trained = false) :
    suggest_next_words m context k =
      [("not", 1/5), ("trained", 1/5), ("yet", 1/5), ("please", 1/5),
       ("wait", 1/5)] := by
  simp [suggest_next_words, h]

/-- C10 (witness): the untrained stub list has length 5 even for `k = 0`. -/
theorem c10_untrained_suggest_witness :
    suggest_next_words (freshModel 3 2) "anything" 0 =
      [("not", 1/5), ("trained", 1/5), ("yet", 1/5), ("please", 1/5),
       ("wait", 1/5)] :=
  c10_untrained_suggest (freshModel 3 2) "anything" 0 rfl

/-- C6 (counterexample): `SimpleLanguageModelBuiltin.train` applied to an
empty sentence list does not raise any error: it returns with the model
state untouched (and still untrained). -/
theorem c6_counterexample :
    train (freshModel 3 2) [] = some (freshModel 3 2) ∧
      (freshModel 3 2).is_trained = false := ⟨rfl, rfl⟩

/-- C6 (amended): model-level `train` on an empty list silently returns
with state unchanged; the distinct "nothing to train on" error is raised
by the chatbot layer (`train_from_books`) when aggregation over a
non-empty book list yields zero sentences, before the model is touched,
and it differs from the "no valid books" error. -/
theorem c6_amended_empty_training (m : Model) (books : List (List String)) :
    train m [] = some m ∧
      (books ≠ [] → books.flatten = [] →
        train_from_books m books = Except.error TrainBooksError.noTrainingSentences) ∧
      TrainBooksError.noTrainingSentences ≠ TrainBooksError.noValidBooks := by
  refine ⟨rfl, fun hb hf => ?_, by decide⟩
  simp [train_from_books, List.isEmpty_iff, hb, hf]

/-- C6 (witness): a non-empty book list with no sentences triggers the
"no training sentences" error. -/
theorem c6_amended_witness :
    train_from_books (freshModel 3 2) [[]] =
      Except.error TrainBooksError.noTrainingSentences :=
  (c6_amended_empty_training (freshModel 3 2) [[]]).2.1 (by decide) rfl

/-- C1 (counterexample): training twice is not the same as training once
on a fresh instance with the same parameters: the word counts of the
first corpus survive the second call. -/
theorem c1_counterexample :
    ((train (freshModel 3 1) ["aa bb cc"]).bind
        (fun m => train m ["dd ee ff"])).map Model.word_counts ≠
      (train (freshModel 3 1) ["dd ee ff"]).map Model.word_counts := by
  with_unfolding_all decide

/-- C2 (counterexample): the corpus `["The cat sat"]` starts with the
title-cased token `"The"`, yet after training the sentence-starter list
is empty (the check is made on the lower-cased token). -/
theorem c2_counterexample :
    (pySplitWs "The cat sat").head? = some "The" ∧
      pyIsTitle "The" = true ∧
      (train (freshModel 3 1) ["The cat sat"]).map Model.sentence_starters =
        some [] := by with_unfolding_all decide

/-- C5 (counterexample): a model trained on a corpus whose every token is
below the minimum count ends up trained with an empty vocabulary, and
prompt-less generation then hits `random.choice` on an empty sequence and
raises instead of returning a string. -/
theorem c5_counterexample :
    (train (freshModel 3 2) ["ab cd ef"]).map Model.is_trained = some true ∧
      (train (freshModel 3 2) ["ab cd ef"]).map Model.vocabulary = some [] ∧
      (train (freshModel 3 2) ["ab cd ef"]).bind
        (fun m => generate_text m "" 100 (8/10) qpow0 rand0) = none := by decide

/-- C3 (counterexample): in the trained state `mBackoffGap` (context size
4) the full context `["bb","cc","dd"]` has no entry, its non-empty suffix
`["dd"]` does, yet `suggest_next_words` returns no suggestions instead of
using the `["dd"]` entry: backoff does not drop tokens repeatedly. -/
theorem c3_counterexample :
    suggestContext mBackoffGap "bb cc dd" = ["bb", "cc", "dd"] ∧
      lookupA mBackoffGap.n_grams ["bb", "cc", "dd"] = none ∧
      ["bb", "cc", "dd"].drop 2 = ["dd"] ∧
      lookupA mBackoffGap.n_grams ["dd"] = some [("aa", 1)] ∧
      suggest_next_words mBackoffGap "bb cc dd" 5 = [] := by decide

/-- C9 (counterexample): on an untrained model with the prompt `"zzzz"`
the generated placeholder contains the prompt word `"zzzz"`, which belongs
to none of the fixed basic-grammar word lists, the marker, or the
punctuation set — the output is not assembled only from the fixed
grammar. -/
theorem c9_counterexample :
    generate_text (freshModel 3 2) "zzzz" 0 (8/10) qpow0 rand0 =
        some "Model not trained. Basic output: zzzz ." ∧
      pyInStr "zzzz" "Model not trained. Basic output: zzzz ." = true ∧
      "zzzz" ∉ basicStarters ∧ "zzzz" ∉ commonWords ∧
      "zzzz" ≠ "[WORD]" ∧ "zzzz" ∉ punctuationMarks := by
  with_unfolding_all decide

theorem pySliceTo_nil {α : Type} (k : ℤ) : pySliceTo ([] : List α) k = [] := by
  simp [pySliceTo, pySlice]

/-- A generation loop with a one-token budget performs exactly one step:
it appends the word `genStep` chooses (whether or not that word is
terminal punctuation, since the budget is exhausted either way). -/
theorem genLoop_one (m : Model) (qpow : ℚ → ℚ → ℚ) (temp : ℚ)
    (rand : ℕ → ℚ) (ws : List String) (c : ℕ) :
    genLoop m qpow temp rand 1 ws c =
      (genStep m qpow temp rand ws c).map (fun p => ws ++ [p.1]) := by
  show genLoop m qpow temp rand (Nat.succ 0) ws c = _
  unfold genLoop
  cases hstep : genStep m qpow temp rand ws c with
  | none => rfl
  | some p =>
    obtain ⟨w, c2⟩ := p
    by_cases hin : pyInStr w ".!?" = true
    · simp [hin]
    · simp only [hin, Bool.false_eq_true, if_false]
      have hz : genLoop m qpow temp rand 0 (ws ++ [w]) c2 = some (ws ++ [w]) := rfl
      rw [hz]
      rfl

/-- C3 (amended): when the full `(n-1)`-token context has no table
entry, both query paths shorten the context by dropping its oldest token
at most once.  `suggest_next_words` uses the once-shortened context's
entry when present and otherwise returns no suggestions; `generate_text`
(here with a one-token budget, isolating one loop iteration) samples
from the once-shortened context's entry when present and otherwise emits
a uniformly random vocabulary token — in both cases even if a shorter
non-empty suffix has a table entry.  (With the default `n = 3` this
coincides with full backoff.) -/
theorem c3_amended_single_backoff (m : Model) (ht : m.is_trained = true) :
    (∀ (context : String) (k : ℤ),
      (lookupA m.n_grams (suggestContext m context)).getD [] = [] →
      suggest_next_words m context k =
        if 1 < (suggestContext m context).length ∧
            (lookupA m.n_grams ((suggestContext m context).drop 1)).getD [] ≠ []
        then
          pySliceTo
            (sortDesc ((lookupA m.n_grams ((suggestContext m context).drop 1)).getD []))
            k
        else []) ∧
    (∀ (prompt : String) (temp : ℚ) (qpow : ℚ → ℚ → ℚ) (rand : ℕ → ℚ),
      prompt ≠ "" →
      (lookupA m.n_grams (genContext m.n_gram_size (promptWords m prompt))).getD [] = [] →
      generate_text m prompt 1 temp qpow rand =
        if 1 < (genContext m.n_gram_size (promptWords m prompt)).length ∧
            (lookupA m.n_grams
              ((genContext m.n_gram_size (promptWords m prompt)).drop 1)).getD [] ≠ []
        then
          (sample_word_builtin
              ((lookupA m.n_grams
                ((genContext m.n_gram_size (promptWords m prompt)).drop 1)).getD [])
              temp qpow (rand 0)).map
            (fun w => format_output (promptWords m prompt ++ [w]))
        else
          (pyChoiceOpt m.vocabulary (rand 0)).map
            (fun w => format_output (promptWords m prompt ++ [w]))) := by
  constructor
  · intro context k hfull
    unfold suggest_next_words suggestProbs
    rw [ht]
    by_cases h1 : 1 < (suggestContext m context).length
    · by_cases h2 : (lookupA m.n_grams ((suggestContext m context).tail)).getD [] = []
      · simp [hfull, h1, h2, sortDesc, pySliceTo_nil, List.drop_one]
      · simp [hfull, h1, h2, List.drop_one]
    · simp [hfull, h1, sortDesc, pySliceTo_nil, List.drop_one]
  · intro prompt temp qpow rand hp hfullg
    have htr : ¬ m.is_trained = false := by simp [ht]
    have hseed : genSeed m prompt rand = some (promptWords m prompt, 0) := by
      unfold genSeed
      rw [if_pos hp]
    unfold generate_text
    rw [if_neg htr, hseed]
    show (genLoop m qpow temp rand (1 : ℤ).toNat (promptWords m prompt) 0).map
        format_output = _
    rw [show ((1 : ℤ).toNat) = 1 from rfl, genLoop_one]
    unfold genStep
    rw [hfullg]
    rw [if_pos (show (([] : List (String × ℚ)).isEmpty = true) from rfl)]
    by_cases hcond : 1 < (genContext m.n_gram_size (promptWords m prompt)).length ∧
        (lookupA m.n_grams
          ((genContext m.n_gram_size (promptWords m prompt)).drop 1)).getD [] ≠ []
    · rw [if_pos hcond]
      have hp2 : genProbs2 m (promptWords m prompt) =
          (lookupA m.n_grams
            ((genContext m.n_gram_size (promptWords m prompt)).drop 1)).getD [] := by
        unfold genProbs2
        rw [if_pos hcond.1]
      rw [hp2]
      rw [if_neg (by simpa [List.isEmpty_iff] using hcond.2)]
      cases hs : sample_word_builtin
          ((lookupA m.n_grams
            ((genContext m.n_gram_size (promptWords m prompt)).drop 1)).getD [])
          temp qpow (rand 0) with
      | none => simp [hs]
      | some w => simp [hs]
    · rw [if_neg hcond]
      have hp2 : genProbs2 m (promptWords m prompt) = [] := by
        unfold genProbs2
        by_cases h1 : 1 < (genContext m.n_gram_size (promptWords m prompt)).length
        · rw [if_pos h1]
          rw [not_and] at hcond
          have h2 := hcond h1
          rw [not_not] at h2
          exact h2
        · rw [if_neg h1]
      rw [hp2]
      rw [if_pos (show (([] : List (String × ℚ)).isEmpty = true) from rfl)]
      cases hc : pyChoiceOpt m.vocabulary (rand 0) with
      | none => simp [hc]
      | some w => simp [hc]

/-- C3 (witness): in `mBackoffOne` the full context `["bb","cc"]` is
absent and the once-shortened `["cc"]` is present: `suggest_next_words`
returns that entry, and `generate_text` with a one-token budget at
temperature 0 greedily emits its word, producing `"Bb cc dd"`. -/
theorem c3_amended_witness :
    suggest_next_words mBackoffOne "bb cc" 5 = [("dd", 1)] ∧
      generate_text mBackoffOne "bb cc" 1 0 qpow0 rand0 = some "Bb cc dd" := by
  constructor
  · rw [(c3_amended_single_backoff mBackoffOne rfl).1 "bb cc" 5 (by decide)]
    with_unfolding_all decide
  · rw [(c3_amended_single_backoff mBackoffOne rfl).2 "bb cc" 0 qpow0 rand0
      (by decide) (by decide)]
    with_unfolding_all decide

theorem toLower_not_upper (c : Char) : pyIsUpperC (pyToLowerC c) = false := by
  unfold pyToLowerC
  by_cases h : pyIsUpperC c = true
  · rw [if_pos h]
    have hb := h
    unfold pyIsUpperC at hb
    rw [Bool.and_eq_true, decide_eq_true_eq, decide_eq_true_eq] at hb
    obtain ⟨h1, h2⟩ := hb
    set nn := c.toNat with hnn
    interval_cases nn <;> decide
  · rw [if_neg h]
    exact Bool.not_eq_true _ ▸ (Bool.eq_false_iff.mpr h)

theorem toLower_lower_of_alpha (c : Char) (h : pyIsAlphaC c = true) :
    pyIsLowerC (pyToLowerC c) = true := by
  unfold pyToLowerC
  by_cases hu : pyIsUpperC c = true
  · rw [if_pos hu]
    unfold pyIsUpperC at hu
    rw [Bool.and_eq_true, decide_eq_true_eq, decide_eq_true_eq] at hu
    obtain ⟨h1, h2⟩ := hu
    set nn := c.toNat with hnn
    interval_cases nn <;> decide
  · rw [if_neg hu]
    unfold pyIsAlphaC at h
    rw [Bool.or_eq_true] at h
    rcases h with h | h
    · exact absurd h hu
    · exact h

/-- A lower-cased all-alphabetic token is never title-cased: its first
character is a lower-case letter following nothing cased. -/
theorem pyIsTitle_strLower (t : String) (h : pyIsAlphaStr t = true) :
    pyIsTitle (strLower t) = false := by
  unfold pyIsAlphaStr at h
  rw [Bool.and_eq_true] at h
  obtain ⟨hne, hall⟩ := h
  cases hd : t.data with
  | nil => rw [hd] at hne; simp at hne
  | cons c cs =>
    have hc : pyIsAlphaC c = true := by
      rw [List.all_eq_true] at hall
      exact hall c (hd ▸ List.mem_cons_self c cs)
    show istGo (String.mk (t.data.map pyToLowerC)).data false false = false
    rw [hd]
    show istGo (pyToLowerC c :: cs.map pyToLowerC) false false = false
    unfold istGo
    rw [toLower_not_upper c, toLower_lower_of_alpha c hc]
    simp

theorem leadsWith_subset [DecidableEq α] (a b : List α) (h : leadsWith a b = true) :
    ∀ x ∈ a, x ∈ b := by
  induction a generalizing b with
  | nil => intro x hx; exact absurd hx (List.not_mem_nil x)
  | cons p ps ih =>
    cases b with
    | nil => exact absurd h (by simp [leadsWith])
    | cons q qs =>
      unfold leadsWith at h
      rw [Bool.and_eq_true, decide_eq_true_eq] at h
      obtain ⟨hpq, hrest⟩ := h
      intro x hx
      rcases List.mem_cons.mp hx with hx | hx
      · exact hx ▸ hpq ▸ List.mem_cons_self q qs
      · exact List.mem_cons_of_mem q (ih qs hrest x hx)

theorem inGo_subset (sub l : List Char) (h : inGo sub l = true) :
    ∀ x ∈ sub, x ∈ l := by
  induction l with
  | nil => exact leadsWith_subset sub [] h
  | cons c rest ih =>
    unfold inGo at h
    rw [Bool.or_eq_true] at h
    rcases h with h | h
    · exact leadsWith_subset sub (c :: rest) h
    · intro x hx
      exact List.mem_cons_of_mem c (ih h x hx)

/-- Every token the `re.findall` scanner emits is a non-empty run of word
characters or one of the five punctuation tokens. -/
theorem tokGo_shape (l : List Char) :
    ∀ acc : List Char, (∀ c ∈ acc, isWordChar c = true) →
      ∀ t ∈ tokGo l acc,
        (t.data ≠ [] ∧ ∀ c ∈ t.data, isWordChar c = true) ∨
          t ∈ [".", "!", "?", ";", ","] := by
  induction l with
  | nil =>
    intro acc hacc t ht
    unfold tokGo tokFinish at ht
    split at ht
    · exact absurd ht (List.not_mem_nil t)
    · next hne =>
      rw [List.mem_singleton] at ht
      subst ht
      refine Or.inl ⟨?_, ?_⟩
      · show acc.reverse ≠ []
        simpa [List.isEmpty_iff] using hne
      · intro c hc
        exact hacc c (List.mem_reverse.mp hc)
  | cons c rest ih =>
    intro acc hacc t ht
    unfold tokGo at ht
    split at ht
    · next hw =>
      exact ih (c :: acc) (by
        intro x hx
        rcases List.mem_cons.mp hx with hx | hx
        · exact hx ▸ hw
        · exact hacc x hx) t ht
    · split at ht
      · next hp =>
        rcases List.mem_append.mp ht with ht | ht
        · unfold tokFinish at ht
          split at ht
          · exact absurd ht (List.not_mem_nil t)
          · next hne =>
            rw [List.mem_singleton] at ht
            subst ht
            refine Or.inl ⟨?_, ?_⟩
            · show acc.reverse ≠ []
              simpa [List.isEmpty_iff] using hne
            · intro x hx
              exact hacc x (List.mem_reverse.mp hx)
        · rcases List.mem_cons.mp ht with ht | ht
          · subst ht
            right
            fin_cases hp <;> decide
          · exact ih [] (by intro x hx; exact absurd hx (List.not_mem_nil x)) t ht
      · rcases List.mem_append.mp ht with ht | ht
        · unfold tokFinish at ht
          split at ht
          · exact absurd ht (List.not_mem_nil t)
          · next hne =>
            rw [List.mem_singleton] at ht
            subst ht
            refine Or.inl ⟨?_, ?_⟩
            · show acc.reverse ≠ []
              simpa [List.isEmpty_iff] using hne
            · intro x hx
              exact hacc x (List.mem_reverse.mp hx)
        · exact ih [] (by intro x hx; exact absurd hx (List.not_mem_nil x)) t ht

/-- No token `_preprocess_sentence` returns is title-cased: alphabetic
tokens are lower-cased first, and the punctuation tokens have no cased
character.  This is what makes the sentence-starter check dead code. -/
theorem preprocess_not_title (s : String) :
    ∀ w ∈ preprocess_sentence s, pyIsTitle w = false := by
  intro w hw
  unfold preprocess_sentence at hw
  rw [List.mem_filterMap] at hw
  obtain ⟨t, ht, hrule⟩ := hw
  split at hrule
  · next hcond =>
    rw [Bool.and_eq_true] at hcond
    rw [Option.some_inj] at hrule
    subst hrule
    exact pyIsTitle_strLower t hcond.1
  · split at hrule
    · next hin =>
      rw [Option.some_inj] at hrule
      subst hrule
      have ht' : t ∈ tokGo (pyStrip s).data [] := ht
      rcases tokGo_shape (pyStrip s).data []
          (by intro x hx; exact absurd hx (List.not_mem_nil x)) t ht' with
        ⟨hne, hword⟩ | hfive
      · exfalso
        cases hdw : t.data with
        | nil => exact hne hdw
        | cons c cs =>
          have hcw : isWordChar c = true := hword c (hdw ▸ List.mem_cons_self c cs)
          have hcin : c ∈ (".!?" : String).data :=
            inGo_subset t.data _ hin c (hdw ▸ List.mem_cons_self c cs)
          have : c = '.' ∨ c = '!' ∨ c = '?' := by
            simpa using hcin
          rcases this with h | h | h <;> rw [h] at hcw <;> exact absurd hcw (by decide)
      · fin_cases hfive <;> decide
    · exact absurd hrule (by simp)

/-- `train`'s per-sentence loop never extends the starter list: the
title-case test is applied to the already lower-cased first token. -/
theorem prepGo_starters (n : ℕ) (sents : List String) :
    ∀ acc res, prepGo n sents acc = some res → res.2.1 = acc.2.1 := by
  induction sents with
  | nil =>
    intro acc res h
    unfold prepGo at h
    rw [Option.some_inj] at h
    rw [← h]
  | cons s rest ih =>
    intro acc res h
    obtain ⟨proc, starters, counts⟩ := acc
    unfold prepGo at h
    split at h
    · split at h
      · exact absurd h (by simp)
      · next w tl hws =>
        have htitle : pyIsTitle w = false :=
          preprocess_not_title s w (hws ▸ List.mem_cons_self w tl)
        rw [htitle] at h
        simp only [Bool.false_eq_true, if_false] at h
        have := ih _ _ h
        simpa using this
    · exact ih _ _ h

/-- C2 (amended): `train` records no sentence starters at all — the
`istitle` check is made on the lower-cased processed token and never
passes, so the starter list is exactly the prior one (empty from a fresh
model), and prompt-less generation therefore always seeds from a
uniformly random vocabulary token rather than a recorded starter. -/
theorem c2_amended_no_starters (s : Model) (sents : List String) (m : Model)
    (h : train s sents = some m) : m.sentence_starters = s.sentence_starters := by
  unfold train at h
  split at h
  · rw [Option.some_inj] at h
    rw [← h]
  · split at h
    · exact absurd h (by simp)
    · next proc starters counts hprep =>
      have hst : starters = s.sentence_starters := by
        have := prepGo_starters s.n_gram_size sents _ _ hprep
        simpa using this
      split at h
      · exact absurd h (by simp)
      · split at h
        · exact absurd h (by simp)
        · rw [Option.some_inj] at h
          rw [← h]
          exact hst

/-- C2 (amended, witness): training a fresh model on `["The cat sat"]`
leaves the starter list empty. -/
theorem c2_amended_witness :
    mStarter.sentence_starters = (freshModel 3 1).sentence_starters :=
  c2_amended_no_starters (freshModel 3 1) ["The cat sat"] mStarter
    (by with_unfolding_all decide)

theorem lookupA_eq_find? [DecidableEq α] (l : List (α × β)) (k : α) :
    lookupA l k = (l.find? (fun e => decide (e.1 = k))).map Prod.snd := by
  induction l with
  | nil => rfl
  | cons e rest ih =>
    obtain ⟨a, b⟩ := e
    unfold lookupA
    by_cases h : a = k
    · rw [if_pos h, List.find?_cons_of_pos _ (by simpa using h)]
      rfl
    · rw [if_neg h, List.find?_cons_of_neg _ (by simpa using h)]
      exact ih

theorem lookupA_map_val [DecidableEq α] (g : α × β → γ) (l : List (α × β)) (k : α) :
    lookupA (l.map (fun e => (e.1, g e))) k =
      (l.find? (fun e => decide (e.1 = k))).map g := by
  induction l with
  | nil => rfl
  | cons e rest ih =>
    obtain ⟨a, b⟩ := e
    show lookupA ((a, g (a, b)) :: rest.map _) k = _
    unfold lookupA
    by_cases h : a = k
    · rw [if_pos h, List.find?_cons_of_pos _ (by simpa using h)]
      rfl
    · rw [if_neg h, List.find?_cons_of_neg _ (by simpa using h)]
      exact ih

theorem sumVals_map_div (v : List (String × ℚ)) (t : ℚ) :
    sumVals (v.map (fun p => (p.1, p.2 / t))) = sumVals v / t := by
  induction v with
  | nil => simp [sumVals]
  | cons p ps ih =>
    unfold sumVals at ih ⊢
    simp only [List.map_cons, List.sum_cons]
    rw [ih, add_div]

/-- After the count-to-probability conversion succeeds, every context's
probabilities sum to exactly 1 (each entry total divided by itself). -/
theorem normalizeTable_sum (tbl tbl' : List (List String × List (String × ℚ)))
    (h : normalizeTable tbl = some tbl') :
    ∀ ctx d, lookupA tbl' ctx = some d → sumVals d = 1 := by
  unfold normalizeTable at h
  split at h
  · next hall =>
    rw [Option.some_inj] at h
    subst h
    intro ctx d hd
    rw [lookupA_map_val (fun e => e.2.map (fun p => (p.1, p.2 / sumVals e.2))) tbl ctx] at hd
    cases hf : tbl.find? (fun e => decide (e.1 = ctx)) with
    | none => rw [hf] at hd; exact absurd hd (by simp)
    | some e =>
      rw [hf] at hd
      have hde : d = e.2.map (fun p => (p.1, p.2 / sumVals e.2)) := by
        simpa using hd.symm
      have he : e ∈ tbl := List.mem_of_find?_eq_some hf
      have hne : sumVals e.2 ≠ 0 := by
        rw [List.all_eq_true] at hall
        have := hall e he
        simpa using this
      rw [hde, sumVals_map_div, div_self hne]
  · exact absurd h (by simp)

/-- C8: after `train` completes on a non-empty sentence list, every
context key present in the n-gram table has next-token probabilities
summing to exactly 1 (hence within any tolerance, in particular 1e-9;
the arithmetic is exact in the rational embedding). -/
theorem c8_prob_sums (s : Model) (sents : List String) (m : Model)
    (hne : sents ≠ []) (h : train s sents = some m) :
    ∀ ctx d, lookupA m.n_grams ctx = some d → sumVals d = 1 := by
  unfold train at h
  split at h
  · next hemp => exact absurd (List.isEmpty_iff.mp hemp) hne
  · split at h
    · exact absurd h (by simp)
    · split at h
      · exact absurd h (by simp)
      · split at h
        · exact absurd h (by simp)
        · next tbl' hnorm =>
          rw [Option.some_inj] at h
          subst h
          intro ctx d hd
          exact normalizeTable_sum _ _ hnorm ctx d hd

/-- C8 (witness): the two-way distribution of `mTrainTwo` at context
`["bb","cc"]` sums to 1. -/
theorem c8_prob_sums_witness :
    sumVals [("dd", (1 : ℚ)/2), ("ee", (1 : ℚ)/2)] = 1 :=
  c8_prob_sums (freshModel 3 1) ["aa bb cc dd.", "aa bb cc ee."] mTrainTwo
    (by decide) (by with_unfolding_all decide) ["bb", "cc"]
    [("dd", (1 : ℚ)/2), ("ee", (1 : ℚ)/2)] (by with_unfolding_all decide)

theorem lookupA_setA_isSome [DecidableEq α] (l : List (α × β)) (k : α) (v : β)
    (k' : α) : (lookupA (setA l k v) k').isSome = (lookupA l k').isSome := by
  induction l with
  | nil => rfl
  | cons e rest ih =>
    obtain ⟨a, b⟩ := e
    unfold setA
    by_cases h : a = k
    · rw [if_pos h]
      unfold lookupA
      by_cases h' : a = k' <;> simp [h']
    · rw [if_neg h]
      unfold lookupA
      by_cases h' : a = k' <;> simp [h', ih]

theorem lookupA_append_isSome [DecidableEq α] (l1 l2 : List (α × β)) (k : α)
    (h : (lookupA l1 k).isSome = true) : (lookupA (l1 ++ l2) k).isSome = true := by
  induction l1 with
  | nil => exact absurd h (by simp [lookupA])
  | cons e rest ih =>
    obtain ⟨a, b⟩ := e
    rw [List.cons_append]
    simp only [lookupA] at h ⊢
    by_cases h' : a = k
    · simp [h']
    · rw [if_neg h'] at h ⊢
      exact ih h

theorem bumpCount_isSome (l : List (String × ℕ)) (w w' : String)
    (h : (lookupA l w').isSome = true) :
    (lookupA (bumpCount l w) w').isSome = true := by
  unfold bumpCount
  cases hl : lookupA l w with
  | some c => rw [lookupA_setA_isSome]; exact h
  | none => exact lookupA_append_isSome l _ w' h

theorem foldl_bumpCount_isSome (ws : List String) :
    ∀ l w', (lookupA l w').isSome = true →
      (lookupA (ws.foldl bumpCount l) w').isSome = true := by
  induction ws with
  | nil => intro l w' h; exact h
  | cons w rest ih =>
    intro l w' h
    exact ih (bumpCount l w) w' (bumpCount_isSome l w w' h)

/-- `train`'s first phase only bumps word counts: every previously
present key stays present. -/
theorem prepGo_counts_isSome (n : ℕ) (sents : List String) :
    ∀ acc res, prepGo n sents acc = some res →
      ∀ w, (lookupA acc.2.2 w).isSome = true →
        (lookupA res.2.2 w).isSome = true := by
  induction sents with
  | nil =>
    intro acc res h w hw
    unfold prepGo at h
    rw [Option.some_inj] at h
    rw [← h]
    exact hw
  | cons s rest ih =>
    intro acc res h w hw
    obtain ⟨proc, starters, counts⟩ := acc
    unfold prepGo at h
    split at h
    · split at h
      · exact absurd h (by simp)
      · next wtok tl hws =>
        exact ih _ _ h w (foldl_bumpCount_isSome (wtok :: tl) counts w hw)
    · exact ih _ _ h w hw

theorem bumpQ_isSome (l : List (String × ℚ)) (w w' : String)
    (h : (lookupA l w').isSome = true) :
    (lookupA (bumpQ l w) w').isSome = true := by
  unfold bumpQ
  cases hl : lookupA l w with
  | some c => rw [lookupA_setA_isSome]; exact h
  | none => exact lookupA_append_isSome l _ w' h

theorem bumpTable_isSome (tbl : List (List String × List (String × ℚ)))
    (k : List String) (w : String) (k' : List String)
    (h : (lookupA tbl k').isSome = true) :
    (lookupA (bumpTable tbl k w) k').isSome = true := by
  unfold bumpTable
  cases hl : lookupA tbl k with
  | some inner => rw [lookupA_setA_isSome]; exact h
  | none => exact lookupA_append_isSome tbl _ k' h

theorem buildFold_isSome (n : ℕ) (filtered : List String) (is : List ℕ) :
    ∀ tbl tbl',
      (is.foldlM (fun (t : List (List String × List (String × ℚ))) (i : ℕ) =>
        match pyIndex filtered ((i : ℤ) + (n : ℤ) - 1) with
        | none => none
        | some nxt =>
          some (bumpTable t (pySlice filtered (i : ℤ) ((i : ℤ) + (n : ℤ) - 1)) nxt))
        tbl = some tbl') →
      ∀ k, (lookupA tbl k).isSome = true → (lookupA tbl' k).isSome = true := by
  induction is with
  | nil =>
    intro tbl tbl' h k hk
    rw [List.foldlM_nil] at h
    exact Option.some_inj.mp h ▸ hk
  | cons i rest ih =>
    intro tbl tbl' h k hk
    rw [List.foldlM_cons] at h
    cases hidx : pyIndex filtered ((i : ℤ) + (n : ℤ) - 1) with
    | none => rw [hidx] at h; exact Option.noConfusion h
    | some nxt =>
      rw [hidx] at h
      exact ih _ _ h k (bumpTable_isSome tbl _ nxt k hk)

theorem buildSent_isSome (n : ℕ) (tbl tbl' : List (List String × List (String × ℚ)))
    (filtered : List String) (h : buildSent n tbl filtered = some tbl') :
    ∀ k, (lookupA tbl k).isSome = true → (lookupA tbl' k).isSome = true := by
  unfold buildSent at h
  split at h
  · exact buildFold_isSome n filtered _ tbl tbl' h
  · intro k hk
    rw [Option.some_inj] at h
    rw [← h]
    exact hk

theorem buildNgrams_isSome (n : ℕ) (vocab : List String)
    (sents : List (List String)) :
    ∀ tbl tbl', buildNgrams n vocab tbl sents = some tbl' →
      ∀ k, (lookupA tbl k).isSome = true → (lookupA tbl' k).isSome = true := by
  induction sents with
  | nil =>
    intro tbl tbl' h k hk
    unfold buildNgrams at h
    rw [List.foldlM_nil] at h
    exact Option.some_inj.mp h ▸ hk
  | cons ws rest ih =>
    intro tbl tbl' h k hk
    unfold buildNgrams at h
    rw [List.foldlM_cons] at h
    cases hs : buildSent n tbl (ws.filter (fun w => vocab.contains w)) with
    | none => rw [hs] at h; exact Option.noConfusion h
    | some t1 =>
      rw [hs] at h
      exact ih t1 tbl' h k (buildSent_isSome n tbl t1 _ hs k hk)

theorem normalizeTable_isSome (tbl tbl' : List (List String × List (String × ℚ)))
    (h : normalizeTable tbl = some tbl') (k : List String)
    (hk : (lookupA tbl k).isSome = true) : (lookupA tbl' k).isSome = true := by
  unfold normalizeTable at h
  split at h
  · rw [Option.some_inj] at h
    subst h
    rw [lookupA_map_val (fun e => e.2.map (fun p => (p.1, p.2 / sumVals e.2))) tbl k]
    rw [lookupA_eq_find?] at hk
    cases hf : tbl.find? (fun e => decide (e.1 = k)) with
    | none => rw [hf] at hk; exact absurd hk (by simp)
    | some e => rfl
  · exact absurd h (by simp)

/-- C1 (amended): `train` merges into the prior state instead of
replacing it: every word already counted stays counted, and every n-gram
context key already present stays present (its distribution
renormalised). -/
theorem c1_amended_accumulation (s : Model) (sents : List String) (m : Model)
    (h : train s sents = some m) :
    (∀ w, (lookupA s.word_counts w).isSome = true →
        (lookupA m.word_counts w).isSome = true) ∧
      (∀ k, (lookupA s.n_grams k).isSome = true →
        (lookupA m.n_grams k).isSome = true) := by
  unfold train at h
  split at h
  · rw [Option.some_inj] at h
    rw [← h]
    exact ⟨fun w hw => hw, fun k hk => hk⟩
  · split at h
    · exact absurd h (by simp)
    · next proc starters counts hprep =>
      split at h
      · exact absurd h (by simp)
      · next tbl hbuild =>
        split at h
        · exact absurd h (by simp)
        · next tbl' hnorm =>
          rw [Option.some_inj] at h
          rw [← h]
          constructor
          · intro w hw
            exact prepGo_counts_isSome s.n_gram_size sents _ _ hprep w hw
          · intro k hk
            exact normalizeTable_isSome tbl tbl' hnorm k
              (buildNgrams_isSome s.n_gram_size _ proc s.n_grams tbl hbuild k hk)

/-- C1 (amended, witness): after `train mTrainA ["dd ee ff"]` the word
`"aa"` of the first corpus is still counted and its old context key is
still in the table. -/
theorem c1_amended_witness :
    (lookupA mTrainB.word_counts "aa").isSome = true ∧
      (lookupA mTrainB.n_grams ["aa", "bb"]).isSome = true :=
  ⟨(c1_amended_accumulation mTrainA ["dd ee ff"] mTrainB
      (by with_unfolding_all decide)).1 "aa" (by decide),
   (c1_amended_accumulation mTrainA ["dd ee ff"] mTrainB
      (by with_unfolding_all decide)).2 ["aa", "bb"] (by decide)⟩

theorem isSome_map_of_isSome (o : Option α) (f : α → β) (h : o.isSome = true) :
    (o.map f).isSome = true := by
  cases o with
  | none => exact absurd h (by simp)
  | some a => rfl

theorem pyChoiceOpt_isSome (l : List α) (u : ℚ) (h : l ≠ []) :
    (pyChoiceOpt l u).isSome = true := by
  have hlen : 1 ≤ l.length := by
    cases l with
    | nil => exact absurd rfl h
    | cons x xs => simp
  have hlt : pyChoiceIdx l.length u < l.length := by
    unfold pyChoiceIdx
    have := Nat.min_le_right (⌊u * (l.length : ℚ)⌋.toNat) (l.length - 1)
    omega
  unfold pyChoiceOpt
  rw [List.get?_eq_get hlt]
  rfl

theorem listMaxQ_mem (l : List ℚ) (h : l ≠ []) : listMaxQ l ∈ l := by
  induction l with
  | nil => exact absurd rfl h
  | cons x xs ih =>
    cases xs with
    | nil => simp [listMaxQ]
    | cons y rest =>
      show max x (listMaxQ (y :: rest)) ∈ x :: y :: rest
      rcases le_total x (listMaxQ (y :: rest)) with hle | hle
      · rw [max_eq_right hle]
        exact List.mem_cons_of_mem x (ih (by simp))
      · rw [max_eq_left hle]
        exact List.mem_cons_self x _

theorem greedyPick_isSome (probs : List (String × ℚ)) (h : probs ≠ []) :
    (greedyPick probs).isSome = true := by
  unfold greedyPick
  apply isSome_map_of_isSome
  rw [List.find?_isSome]
  have hmem : listMaxQ (probs.map Prod.snd) ∈ probs.map Prod.snd :=
    listMaxQ_mem _ (by simpa using h)
  rcases List.mem_map.mp hmem with ⟨p, hp, hpv⟩
  exact ⟨p, hp, by simpa using hpv⟩

theorem sample_word_isSome (probs : List (String × ℚ)) (temp : ℚ)
    (qpow : ℚ → ℚ → ℚ) (u : ℚ) (h : probs ≠ []) :
    (sample_word_builtin probs temp qpow u).isSome = true := by
  unfold sample_word_builtin
  by_cases h0 : temp = 0
  · rw [if_pos h0]
    exact greedyPick_isSome probs h
  · rw [if_neg h0]
    by_cases htot : sumVals (scaleTemp probs temp qpow) = 0
    · rw [if_pos htot]
      exact pyChoiceOpt_isSome _ u (by simpa using h)
    · rw [if_neg htot]
      cases hc : cdfGo 0 ((scaleTemp probs temp qpow).map
          (fun p => (p.1, p.2 / sumVals (scaleTemp probs temp qpow)))) u with
      | some w => rfl
      | none =>
        rw [List.getLast?_isSome]
        simpa using h

theorem genStep_isSome (m : Model) (qpow : ℚ → ℚ → ℚ) (temp : ℚ)
    (rand : ℕ → ℚ) (words : List String) (c : ℕ)
    (hvoc : m.vocabulary ≠ []) :
    (genStep m qpow temp rand words c).isSome = true := by
  unfold genStep
  by_cases hp : ((lookupA m.n_grams (genContext m.n_gram_size words)).getD []).isEmpty = true
  · rw [if_pos hp]
    by_cases hp2 : (genProbs2 m words).isEmpty = true
    · rw [if_pos hp2]
      exact isSome_map_of_isSome _ _ (pyChoiceOpt_isSome m.vocabulary (rand c) hvoc)
    · rw [if_neg hp2]
      refine isSome_map_of_isSome _ _ (sample_word_isSome _ temp qpow (rand c) ?_)
      intro hnil
      exact hp2 (by rw [hnil]; rfl)
  · rw [if_neg hp]
    refine isSome_map_of_isSome _ _ (sample_word_isSome _ temp qpow (rand c) ?_)
    intro hnil
    exact hp (by rw [hnil]; rfl)

theorem genLoop_isSome (m : Model) (qpow : ℚ → ℚ → ℚ) (temp : ℚ)
    (rand : ℕ → ℚ) (fuel : ℕ) (hvoc : m.vocabulary ≠ []) :
    ∀ words c, (genLoop m qpow temp rand fuel words c).isSome = true := by
  induction fuel with
  | zero => intro words c; rfl
  | succ fuel ih =>
    intro words c
    unfold genLoop
    cases hstep : genStep m qpow temp rand words c with
    | none =>
      have := genStep_isSome m qpow temp rand words c hvoc
      rw [hstep] at this
      exact absurd this (by simp)
    | some p =>
      by_cases hin : pyInStr p.1 ".!?" = true
      · simp [hin]
      · simp only [hin, Bool.false_eq_true, if_false]
        exact ih _ _

theorem pySetOfList_ne_nil [DecidableEq α] (l : List α) (h : l ≠ []) :
    pySetOfList l ≠ [] := by
  cases l with
  | nil => exact absurd rfl h
  | cons x xs => simp [pySetOfList, pySetGo]

theorem genSeed_isSome (m : Model) (prompt : String) (rand : ℕ → ℚ)
    (hvoc : m.vocabulary ≠ []) : (genSeed m prompt rand).isSome = true := by
  unfold genSeed
  by_cases hp : prompt ≠ ""
  · rw [if_pos hp]; rfl
  · rw [if_neg hp]
    by_cases hs : (!m.sentence_starters.isEmpty) = true
    · rw [if_pos hs]
      refine isSome_map_of_isSome _ _ (pyChoiceOpt_isSome _ (rand 0) ?_)
      apply pySetOfList_ne_nil
      intro hnil
      rw [hnil] at hs
      exact absurd hs (by simp)
    · rw [if_neg hs]
      exact isSome_map_of_isSome _ _ (pyChoiceOpt_isSome m.vocabulary (rand 0) hvoc)

/-- C5 (amended): `generate_text` returns a string — never an exception —
for every prompt, every integer token budget and every temperature ≥ 0,
whenever the model is untrained or its vocabulary is non-empty (the
exception of the counterexample needs a trained model with an empty
vocabulary). -/
theorem c5_amended_total (m : Model) (prompt : String) (max_length : ℤ)
    (temperature : ℚ) (qpow : ℚ → ℚ → ℚ) (rand : ℕ → ℚ)
    (hok : m.is_trained = false ∨ m.vocabulary ≠ [])
    (htemp : 0 ≤ temperature) :
    ∃ s, generate_text m prompt max_length temperature qpow rand = some s := by
  unfold generate_text
  by_cases htr : m.is_trained = false
  · rw [if_pos htr]
    exact ⟨_, rfl⟩
  · have hvoc : m.vocabulary ≠ [] := hok.resolve_left htr
    rw [if_neg htr]
    cases hseed : genSeed m prompt rand with
    | none =>
      have := genSeed_isSome m prompt rand hvoc
      rw [hseed] at this
      exact absurd this (by simp)
    | some p =>
      cases hloop : genLoop m qpow temperature rand max_length.toNat p.1 p.2 with
      | none =>
        have := genLoop_isSome m qpow temperature rand max_length.toNat hvoc p.1 p.2
        rw [hloop] at this
        exact absurd this (by simp)
      | some wl =>
        refine ⟨format_output wl, ?_⟩
        show Option.map format_output
          (genLoop m qpow temperature rand max_length.toNat p.1 p.2) = _
        rw [hloop]
        rfl

/-- C5 (amended, witness): an untrained model returns a string. -/
theorem c5_amended_witness :
    ∃ s, generate_text (freshModel 3 2) "" 3 1 qpow0 rand0 = some s :=
  c5_amended_total (freshModel 3 2) "" 3 1 qpow0 rand0 (Or.inl rfl) (by norm_num)

theorem choiceD_mem (l : List α) (u : ℚ) (d : α) (hd : d ∈ l) :
    choiceD l u d ∈ l := by
  unfold choiceD
  cases ho : pyChoiceOpt l u with
  | none => exact hd
  | some x =>
    unfold pyChoiceOpt at ho
    exact List.get?_mem ho

/-- Every word the untrained generation loop emits is a fixed common word
or the literal `"[WORD]"` marker. -/
theorem basicMiddle_mem (rand : ℕ → ℚ) (k : ℕ) :
    ∀ c w, w ∈ (basicMiddle rand c k).1 → w ∈ commonWords ∨ w = "[WORD]" := by
  induction k with
  | zero => intro c w hw; exact absurd hw (List.not_mem_nil w)
  | succ k ih =>
    intro c w hw
    unfold basicMiddle at hw
    by_cases hr : rand c < 3 / 10
    · rw [if_pos hr] at hw
      rcases List.mem_cons.mp hw with hw | hw
      · exact Or.inl (hw ▸ choiceD_mem commonWords (rand (c + 1)) "the" (by decide))
      · exact ih (c + 2) w hw
    · rw [if_neg hr] at hw
      rcases List.mem_cons.mp hw with hw | hw
      · exact Or.inr hw
      · exact ih (c + 1) w hw

/-- C9 (amended): on an untrained model, generation never consults the
n-gram table or any other model state: it returns the labeled placeholder
built from the prompt's whitespace-split words (or one fixed starter when
the prompt is empty), then words drawn only from the fixed common-word
list and the literal `"[WORD]"` marker, terminated by one punctuation
mark from the fixed set — a function of prompt, budget and random stream
alone. -/
theorem c9_amended_basic (m : Model) (h : m.is_trained = false)
    (prompt : String) (len : ℤ) (temp : ℚ) (qpow : ℚ → ℚ → ℚ)
    (rand : ℕ → ℚ) :
    generate_text m prompt len temp qpow rand =
        some (generate_basic_text prompt len rand) ∧
      ∃ mid punct,
        genBasicWords prompt len rand =
          (if prompt = "" then [choiceD basicStarters (rand 0) "The"]
            else pySplitWs prompt) ++ mid ++ [punct] ∧
          (∀ w ∈ mid, w ∈ commonWords ∨ w = "[WORD]") ∧
          punct ∈ punctuationMarks ∧
          (prompt = "" → choiceD basicStarters (rand 0) "The" ∈ basicStarters) := by
  constructor
  · unfold generate_text
    rw [if_pos h]
  · refine ⟨(basicMiddle rand (basicSeed prompt rand).2 (min len 20).toNat).1,
      choiceD punctuationMarks
        (rand (basicMiddle rand (basicSeed prompt rand).2 (min len 20).toNat).2) ".",
      ?_, ?_, ?_, ?_⟩
    · unfold genBasicWords basicSeed
      by_cases hp : prompt = "" <;> simp [hp]
    · intro w hw
      exact basicMiddle_mem rand _ _ w hw
    · exact choiceD_mem punctuationMarks _ "." (by decide)
    · intro _
      exact choiceD_mem basicStarters _ "The" (by decide)

/-- C9 (amended, witness): untrained generation returns exactly the
placeholder text, independent of the model. -/
theorem c9_amended_witness :
    generate_text (freshModel 3 2) "" 3 1 qpow0 rand0 =
      some (generate_basic_text "" 3 rand0) :=
  (c9_amended_basic (freshModel 3 2) rfl "" 3 1 qpow0 rand0).1

theorem charToDigit_digitChar (d : ℕ) (h : d < 10) :
    charToDigit (Nat.digitChar d) = d := by
  interval_cases d <;> decide

theorem isDigit_digitChar (d : ℕ) (h : d < 10) :
    pyIsDigitC (Nat.digitChar d) = true := by
  interval_cases d <;> decide

/-- `int(str(n))` is the identity: parsing the decimal rendering of an id
recovers the id. -/
theorem parseNat_natToStr (n : ℕ) : parseNat (natToStr n) = some n := by
  by_cases h0 : n = 0
  · subst h0; decide
  · have hdigs : ∀ d ∈ Nat.digits 10 n, d < 10 :=
      fun d hd => Nat.digits_lt_base (by norm_num) hd
    have hne : Nat.digits 10 n ≠ [] := Nat.digits_ne_nil_iff_ne_zero.mpr h0
    unfold natToStr
    rw [if_neg h0]
    unfold parseNat
    have hdata : (String.mk ((Nat.digits 10 n).reverse.map Nat.digitChar)).data =
        (Nat.digits 10 n).reverse.map Nat.digitChar := rfl
    rw [hdata]
    have hcond : (!((Nat.digits 10 n).reverse.map Nat.digitChar).isEmpty &&
        ((Nat.digits 10 n).reverse.map Nat.digitChar).all pyIsDigitC) = true := by
      rw [Bool.and_eq_true]
      constructor
      · simp [List.isEmpty_iff, hne]
      · rw [List.all_eq_true]
        intro c hc
        rcases List.mem_map.mp hc with ⟨d, hd, hdc⟩
        exact hdc ▸ isDigit_digitChar d (hdigs d (List.mem_reverse.mp hd))
    rw [if_pos hcond]
    have hmm : (((Nat.digits 10 n).reverse.map Nat.digitChar).map charToDigit) =
        (Nat.digits 10 n).reverse := by
      rw [List.map_map]
      have hcg : ∀ d ∈ (Nat.digits 10 n).reverse,
          (charToDigit ∘ Nat.digitChar) d = d :=
        fun d hd => charToDigit_digitChar d (hdigs d (List.mem_reverse.mp hd))
      rw [List.map_congr_left hcg]
      exact List.map_id' _
    rw [hmm, List.reverse_reverse, Nat.ofDigits_digits]

theorem parsePairs_natToStr (l : List (ℕ × String)) :
    parsePairs parseNat (l.map (fun p => (natToStr p.1, p.2))) = some l := by
  induction l with
  | nil => rfl
  | cons p rest ih =>
    obtain ⟨i, w⟩ := p
    rw [List.map_cons]
    unfold parsePairs
    rw [parseNat_natToStr, ih]

theorem splitAtQuote_append (t : List Char) (r : List Char)
    (h : ∀ c ∈ t, c ≠ qchar) : splitAtQuote (t ++ qchar :: r) = some (t, r) := by
  induction t with
  | nil =>
    show splitAtQuote (qchar :: r) = some ([], r)
    unfold splitAtQuote
    rw [if_pos rfl]
  | cons c cs ih =>
    have hc : c ≠ qchar := h c (List.mem_cons_self _ _)
    rw [List.cons_append]
    unfold splitAtQuote
    rw [if_neg hc, ih (fun x hx => h x (List.mem_cons_of_mem c hx))]
    rfl

theorem safeTok_no_quote (t : String) (h : safeTok t) : ∀ c ∈ t.data, c ≠ qchar :=
  fun c hc => (h c hc).2.2.1

theorem decItems_encRest (ts : List String) :
    ts ≠ [] → (∀ t ∈ ts, safeTok t) →
      ∀ fuel, (encRest ts).length ≤ fuel → decItems fuel (encRest ts) = some ts := by
  induction ts with
  | nil => intro h; exact absurd rfl h
  | cons t rest ih =>
    intro _ hsafe fuel hfuel
    cases rest with
    | nil =>
      have hlen : (encRest [t]).length = t.data.length + 3 := by
        simp [encRest]
      cases fuel with
      | zero => rw [hlen] at hfuel; omega
      | succ f =>
        show decItems (f + 1) (qchar :: (t.data ++ [qchar, ')'])) = some [t]
        unfold decItems
        rw [if_pos rfl]
        rw [show t.data ++ [qchar, ')'] = t.data ++ qchar :: [')'] from rfl]
        rw [splitAtQuote_append t.data [')']
          (safeTok_no_quote t (hsafe t (List.mem_cons_self t [])))]
        dsimp only
        rw [if_neg (by decide), if_pos rfl]
    | cons t2 rest2 =>
      have hlen : (encRest (t :: t2 :: rest2)).length =
          t.data.length + 4 + (encRest (t2 :: rest2)).length := by
        simp [encRest]
        omega
      cases fuel with
      | zero => rw [hlen] at hfuel; omega
      | succ f =>
        show decItems (f + 1)
          (qchar :: ((t.data ++ [qchar, ',', ' ']) ++ encRest (t2 :: rest2))) = _
        unfold decItems
        rw [if_pos rfl]
        rw [List.append_assoc,
          show [qchar, ',', ' '] ++ encRest (t2 :: rest2) =
            qchar :: (',' :: ' ' :: encRest (t2 :: rest2)) from rfl]
        rw [splitAtQuote_append t.data (',' :: ' ' :: encRest (t2 :: rest2))
          (safeTok_no_quote t (hsafe t (List.mem_cons_self t _)))]
        dsimp only
        have henc : encRest (t2 :: rest2) = qchar :: (t2.data ++
            (if rest2.isEmpty then [qchar, ')'] else [qchar, ',', ' '] ++ encRest rest2)) := by
          cases rest2 with
          | nil => simp [encRest]
          | cons t3 rest3 => simp [encRest]
        rw [if_neg (by rw [henc]; simp), if_neg (by simp), if_pos (by simp)]
        have hrec : decItems f (encRest (t2 :: rest2)) = some (t2 :: rest2) := by
          apply ih (by simp) (fun x hx => hsafe x (List.mem_cons_of_mem t hx)) f
          rw [hlen] at hfuel
          omega
        rw [show List.drop 2 (',' :: ' ' :: encRest (t2 :: rest2)) =
          encRest (t2 :: rest2) from rfl, hrec]
        rfl

/-- `eval(str(k))` is the identity on tuples of repr-plain tokens. -/
theorem decodeKey_encodeKey (k : List String) (hsafe : ∀ t ∈ k, safeTok t) :
    decodeKey (encodeKey k) = some k := by
  cases k with
  | nil => decide
  | cons t rest =>
    cases rest with
    | nil =>
      show decodeChars ('(' :: qchar :: (t.data ++ [qchar, ',', ')'])) = _
      unfold decodeChars
      dsimp only
      rw [if_pos rfl, if_neg (by simp)]
      rw [show (qchar :: (t.data ++ [qchar, ',', ')'])).length =
        (t.data ++ [qchar, ',', ')']).length + 1 from rfl]
      unfold decItems
      rw [if_pos rfl]
      rw [show t.data ++ [qchar, ',', ')'] = t.data ++ qchar :: [',', ')'] from rfl]
      rw [splitAtQuote_append t.data [',', ')']
        (safeTok_no_quote t (hsafe t (List.mem_cons_self t [])))]
      dsimp only
      rw [if_pos rfl]
    | cons t2 rest2 =>
      show decodeChars ('(' :: encRest (t :: t2 :: rest2)) = _
      unfold decodeChars
      dsimp only
      rw [if_pos rfl]
      have henc : encRest (t :: t2 :: rest2) =
          qchar :: ((t.data ++ [qchar, ',', ' ']) ++ encRest (t2 :: rest2)) := by
        simp [encRest]
      rw [if_neg (by rw [henc]; simp)]
      exact decItems_encRest (t :: t2 :: rest2) (by simp) hsafe _ le_rfl

theorem parsePairs_decode_ngrams (l : List (List String × List (String × ℚ)))
    (h : ∀ e ∈ l, ∀ t ∈ e.1, safeTok t) :
    parsePairs decodeKey (l.map (fun p => (encodeKey p.1, p.2))) = some l := by
  induction l with
  | nil => rfl
  | cons e rest ih =>
    obtain ⟨k, v⟩ := e
    rw [List.map_cons]
    unfold parsePairs
    have hk : decodeKey (encodeKey k) = some k :=
      decodeKey_encodeKey k (h (k, v) (List.mem_cons_self _ _))
    rw [hk, ih (fun e he => h e (List.mem_cons_of_mem _ he))]

theorem pySetGo_eq_self [DecidableEq α] (l : List α) :
    ∀ seen : List α, l.Nodup → (∀ x ∈ l, x ∉ seen) → pySetGo seen l = l := by
  induction l with
  | nil => intro seen _ _; rfl
  | cons x xs ih =>
    intro seen hnd hseen
    unfold pySetGo
    have hcx : seen.contains x = false := by
      have := hseen x (List.mem_cons_self x xs)
      simpa using this
    rw [hcx]
    simp only [Bool.false_eq_true, if_false]
    rw [ih (x :: seen) (List.Nodup.of_cons hnd)]
    intro y hy
    rw [List.mem_cons]
    push_neg
    constructor
    · intro hyx
      subst hyx
      exact absurd hy (List.Nodup.not_mem hnd)
    · exact hseen y (List.mem_cons_of_mem x hy)

theorem pySetOfList_eq_self [DecidableEq α] (l : List α) (h : l.Nodup) :
    pySetOfList l = l :=
  pySetGo_eq_self l [] h (fun x _ => List.not_mem_nil x)

/-- C4: for a trained model whose vocabulary has no duplicates and whose
n-gram context keys consist of repr-plain tokens (both hold for every
model `train` produces), `save_model` followed by `load_model`
reconstructs the identical runtime state, and therefore generation with
the same arguments and the same random stream (same seed) on the loaded
instance reproduces the original instance's output exactly. -/
theorem c4_roundtrip (m : Model) (ht : m.is_trained = true)
    (hvoc : m.vocabulary.Nodup)
    (hkeys : ∀ e ∈ m.n_grams, ∀ t ∈ e.1, safeTok t) :
    load_model (save_model m) = some m ∧
      ∀ prompt len temp qpow rand,
        (load_model (save_model m)).bind
          (fun m2 => generate_text m2 prompt len temp qpow rand) =
        generate_text m prompt len temp qpow rand := by
  have hload : load_model (save_model m) = some m := by
    obtain ⟨n, minc, w2i, i2w, voc, wc, ng, ss, tr⟩ := m
    show load_model (SavedModel.mk n minc w2i
      (i2w.map (fun p => (natToStr p.1, p.2))) voc wc
      (ng.map (fun p => (encodeKey p.1, p.2))) ss tr) = _
    unfold load_model
    rw [parsePairs_natToStr i2w, parsePairs_decode_ngrams ng hkeys]
    rw [pySetOfList_eq_self voc hvoc]
  refine ⟨hload, fun prompt len temp qpow rand => ?_⟩
  rw [hload]
  rfl

/-- C4 (witness): the round trip is the identity on the concrete trained
state `mRoundTrip`. -/
theorem c4_roundtrip_witness : load_model (save_model mRoundTrip) = some mRoundTrip :=
  (c4_roundtrip mRoundTrip rfl (by decide) (by decide)).1
